import Mathlib

/-!
Shallow embedding of the tweakable-constructs core (construct tree, linkable
protocol, property model, tweak resolution, resource renderer) together with
proofs about the behaviours described in its specification.

Conventions of the embedding:
* TS/JS runtime values that appear in rendered documents are modelled by
  `Value`; the JS value `undefined` is the constructor `Value.undef`
  (an unset `ScalarProperty` holds `undefined`).
* Constructs live in an arena (`World`); a construct is a natural number
  index and the per-construct fields of the source classes are functions
  out of the index.  `0` is reserved for the `Scope.FLOATING` singleton.
* A JS `Record<string, T>` used as an insertion-ordered map is modelled as
  an association list, with new keys appended at the end (the claims only
  exercise non-numeric keys, for which this is the JS enumeration order).
* `throw new Error(...)` is modelled with `Except Err`; each distinct
  throw site of the source gets its own `Err` constructor.  Operations for
  which the claims observe the partially-mutated state after a throw
  return the state next to the `Except` result.
-/

/-- Runtime values: JS strings, arrays, plain objects (insertion-ordered
fields) and `undefined`. -/
inductive Value where
  | undef : Value
  | str : String → Value
  | arr : List Value → Value
  | obj : List (String × Value) → Value

mutual

/-- Decidable equality for `Value` (the derive handler does not support this
nested inductive). -/
def Value.decEq : (a b : Value) → Decidable (a = b)
  | .undef, .undef => isTrue rfl
  | .str s, .str t =>
    match String.decEq s t with
    | isTrue h => isTrue (by rw [h])
    | isFalse h => isFalse (fun hh => h (Value.str.inj hh))
  | .arr xs, .arr ys =>
    match Value.decEqList xs ys with
    | isTrue h => isTrue (by rw [h])
    | isFalse h => isFalse (fun hh => h (Value.arr.inj hh))
  | .obj fs, .obj gs =>
    match Value.decEqFields fs gs with
    | isTrue h => isTrue (by rw [h])
    | isFalse h => isFalse (fun hh => h (Value.obj.inj hh))
  | .undef, .str _ => isFalse (fun h => Value.noConfusion h)
  | .undef, .arr _ => isFalse (fun h => Value.noConfusion h)
  | .undef, .obj _ => isFalse (fun h => Value.noConfusion h)
  | .str _, .undef => isFalse (fun h => Value.noConfusion h)
  | .str _, .arr _ => isFalse (fun h => Value.noConfusion h)
  | .str _, .obj _ => isFalse (fun h => Value.noConfusion h)
  | .arr _, .undef => isFalse (fun h => Value.noConfusion h)
  | .arr _, .str _ => isFalse (fun h => Value.noConfusion h)
  | .arr _, .obj _ => isFalse (fun h => Value.noConfusion h)
  | .obj _, .undef => isFalse (fun h => Value.noConfusion h)
  | .obj _, .str _ => isFalse (fun h => Value.noConfusion h)
  | .obj _, .arr _ => isFalse (fun h => Value.noConfusion h)

/-- Decidable equality for lists of values. -/
def Value.decEqList : (a b : List Value) → Decidable (a = b)
  | [], [] => isTrue rfl
  | [], _ :: _ => isFalse (fun h => List.noConfusion h)
  | _ :: _, [] => isFalse (fun h => List.noConfusion h)
  | x :: xs, y :: ys =>
    match Value.decEq x y with
    | isFalse h => isFalse (fun hh => h (List.cons.inj hh).1)
    | isTrue h1 =>
      match Value.decEqList xs ys with
      | isTrue h2 => isTrue (by rw [h1, h2])
      | isFalse h => isFalse (fun hh => h (List.cons.inj hh).2)

/-- Decidable equality for field lists of objects. -/
def Value.decEqFields : (a b : List (String × Value)) → Decidable (a = b)
  | [], [] => isTrue rfl
  | [], _ :: _ => isFalse (fun h => List.noConfusion h)
  | _ :: _, [] => isFalse (fun h => List.noConfusion h)
  | (k, x) :: xs, (l, y) :: ys =>
    match String.decEq k l with
    | isFalse h => isFalse (fun hh => h (congrArg Prod.fst (List.cons.inj hh).1))
    | isTrue hk =>
      match Value.decEq x y with
      | isFalse h => isFalse (fun hh => h (congrArg Prod.snd (List.cons.inj hh).1))
      | isTrue hx =>
        match Value.decEqFields xs ys with
        | isTrue ht => isTrue (by rw [hk, hx, ht])
        | isFalse h => isFalse (fun hh => h (List.cons.inj hh).2)

end

instance : DecidableEq Value := Value.decEq

/-- State of a `Property` held by a `Resource`, as observed by rendering and
by tweaks: a `ScalarProperty` stores one value (`Value.undef` when unset,
matching `_value: any | undefined` in the source), a `CollectionProperty`
stores the append-only array.  The observer lists of properties are modelled
separately (see `PHeap`): no observer is ever registered on a resource
property in the scenarios the claims quantify over. -/
inductive PropVal where
  | scalar : Value → PropVal
  | collection : List Value → PropVal
deriving DecidableEq

/-- One constructor per distinct `throw new Error(...)` site of the source
that the claims mention. -/
inductive Err where
  | invalidIdentity : Err
  | duplicateChild : String → Err
  | notReparentable : Err
  | reparentConflict : String → Err
  | duplicateProperty : String → Err
  | unknownProperty : String → Err
  | scalarTypeMismatch : Err
  | scalarAlreadySet : Err
  | collectionTypeMismatch : Err
  | alreadyLinked : Err
  | expectedResource : Err
deriving DecidableEq

/-- Arena of constructs.  Index `0` is reserved for the `Scope.FLOATING`
singleton (`scopeOf 0 = none`, `idOf 0 = none`).  `childrenOf` is the
`children` record, `advertisesOf` the advertised capability tags
(`linkableTargets` / `linksAs`), and the `Resource` subclass fields are
`isResource`, `resTypeOf`, `propsOf`. -/
structure World where
  scopeOf : Nat → Option Nat
  idOf : Nat → Option String
  childrenOf : Nat → List (String × Nat)
  advertisesOf : Nat → List String
  isResource : Nat → Bool
  resTypeOf : Nat → String
  propsOf : Nat → List (String × PropVal)

/-- World in which every construct slot is blank. -/
def emptyWorld : World where
  scopeOf := fun _ => none
  idOf := fun _ => none
  childrenOf := fun _ => []
  advertisesOf := fun _ => []
  isResource := fun _ => false
  resTypeOf := fun _ => ""
  propsOf := fun _ => []

def World.setScope (w : World) (n : Nat) (s : Option Nat) : World :=
  { w with scopeOf := fun m => if m = n then s else w.scopeOf m }

def World.setId (w : World) (n : Nat) (i : Option String) : World :=
  { w with idOf := fun m => if m = n then i else w.idOf m }

def World.setChildren (w : World) (n : Nat) (cs : List (String × Nat)) : World :=
  { w with childrenOf := fun m => if m = n then cs else w.childrenOf m }

def World.setAdvertises (w : World) (n : Nat) (ts : List String) : World :=
  { w with advertisesOf := fun m => if m = n then ts else w.advertisesOf m }

def World.setResource (w : World) (n : Nat) (rt : String) : World :=
  { w with
    isResource := fun m => if m = n then true else w.isResource m
    resTypeOf := fun m => if m = n then rt else w.resTypeOf m }

def World.setProps (w : World) (n : Nat) (ps : List (String × PropVal)) : World :=
  { w with propsOf := fun m => if m = n then ps else w.propsOf m }

/-- JS `x === null` evaluated at a value of TS type `T | undefined`.  The
constructor parameters `_scope : Construct | undefined` and
`id : string | undefined` can only hold `undefined` or a proper value, never
`null`, and in JS both `undefined === null` and `v === null` for a proper
value `v` are `false`; so this strict comparison is constantly `false`. -/
def tsEqNull {α : Type} : Option α → Bool := fun _ => false

/-- JS truthiness of an optional string: `undefined` and the empty string
are falsy. -/
def truthyId : Option String → Bool
  | none => false
  | some s => s ≠ ""

/-- The `Construct` constructor: guard `(id === null) !== (_scope === null)`,
then, when both `_scope` and `id` are truthy, duplicate-child check and
registration of the new construct `n` under its scope. -/
def constructInit (w : World) (n : Nat) (scope : Option Nat) (id : Option String) :
    Except Err World :=
  if (tsEqNull id != tsEqNull scope) then
    .error .invalidIdentity
  else
    let w := (w.setScope n scope).setId n id
    match scope, id with
    | some s, some i =>
      if i = "" then
        .ok w
      else if ((w.childrenOf s).lookup i).isSome then
        .error (.duplicateChild i)
      else
        .ok (w.setChildren s (w.childrenOf s ++ [(i, n)]))
    | _, _ => .ok w

/-- The `Resource` constructor body on top of `constructInit`. -/
def resourceInit (w : World) (n : Nat) (scope : Option Nat) (id : Option String)
    (rt : String) : Except Err World := do
  let w ← constructInit w n scope id
  pure (w.setResource n rt)

/-- `makeLinkableAs` (also named `makeLinkable` in one source revision):
appends the given capability tags to the construct's advertised tags. -/
def makeLinkableAs (w : World) (n : Nat) (ts : List String) : World :=
  w.setAdvertises n (w.advertisesOf n ++ ts)

/-- `Resource.addProperty`: duplicate-name check, then insertion. -/
def addProperty (w : World) (n : Nat) (name : String) (pv : PropVal) :
    Except Err World :=
  if ((w.propsOf n).lookup name).isSome then
    .error (.duplicateProperty name)
  else
    .ok (w.setProps n (w.propsOf n ++ [(name, pv)]))

/-- `Construct.reparentTo`.  The source removes the construct from its old
parent's children before checking the destination for a conflicting id, so
the state next to an error result reflects that removal. -/
def reparentTo (node np : Nat) (w : World) : Except Err Unit × World :=
  match w.scopeOf node, w.idOf node with
  | some p0, some i =>
    if i = "" then
      (.error .notReparentable, w)
    else
      let w1 := w.setChildren p0 ((w.childrenOf p0).filter (fun e => e.2 ≠ node))
      if ((w1.childrenOf np).lookup i).isSome then
        (.error (.reparentConflict i), w1)
      else
        (.ok (), ((w1.setChildren np (w1.childrenOf np ++ [(i, node)])).setScope node (some np)))
  | _, _ => (.error .notReparentable, w)

/-- Linkables that occur in the claims: the two tweak objects.  (Constructs
can also act as linkables in the source; none of the claims exercises that
path, and tweaks are not constructs, so `link`'s floating-scope branch never
fires for them.) -/
inductive Lkbl where
  | scalarTweak : String → String → Value → Lkbl
  | collectionTweak : String → String → Value → Lkbl

/-- `linkTargets` of a tweak: the single capability tag of its target
resource type. -/
def lkTargets : Lkbl → List String
  | .scalarTweak rt _ _ => [rt]
  | .collectionTweak rt _ _ => [rt]

/-- `ScalarTweak.linkTo`: resource check, property lookup
(`UnknownPropertyError`), variant check (`TypeMismatchError`), set-once
check (`AlreadySetError`, via `ScalarProperty.hasValue`,
i.e. `_value !== undefined`), then `ScalarProperty.set`. -/
def scalarTweakLinkTo (property : String) (value : Value) (res : Nat) (w : World) :
    Except Err World :=
  if !w.isResource res then
    .error .expectedResource
  else
    match (w.propsOf res).lookup property with
    | none => .error (.unknownProperty property)
    | some (.collection _) => .error .scalarTypeMismatch
    | some (.scalar .undef) =>
      .ok (w.setProps res ((w.propsOf res).map
        (fun e => if e.1 = property then (property, PropVal.scalar value) else e)))
    | some (.scalar _) => .error .scalarAlreadySet

/-- `CollectionTweak.linkTo`: resource check, property lookup, variant
check, then unconditional `CollectionProperty.add` (append). -/
def collectionTweakLinkTo (collection : String) (value : Value) (res : Nat) (w : World) :
    Except Err World :=
  if !w.isResource res then
    .error .expectedResource
  else
    match (w.propsOf res).lookup collection with
    | none => .error (.unknownProperty collection)
    | some (.scalar _) => .error .collectionTypeMismatch
    | some (.collection xs) =>
      .ok (w.setProps res ((w.propsOf res).map
        (fun e => if e.1 = collection then (collection, PropVal.collection (xs ++ [value])) else e)))

/-- Virtual dispatch of `linkable.linkTo(target)`. -/
def lkLinkTo : Lkbl → Nat → World → Except Err World
  | .scalarTweak _ p v, res, w => scalarTweakLinkTo p v res w
  | .collectionTweak _ c v, res, w => collectionTweakLinkTo c v res w

/-- `Linkable.tryLink`: attach exactly when some target tag of the linkable
is among the advertised tags of the target construct.  The boolean is the
`result` variable of the source (true only when the attach ran to
completion). -/
def tryLink (lk : Lkbl) (target : Nat) (w : World) : Except Err World × Bool :=
  if (lkTargets lk).any (fun t => (w.advertisesOf target).contains t) then
    match lkLinkTo lk target w with
    | .ok w1 => (.ok w1, true)
    | .error e => (.error e, false)
  else
    (.ok w, false)

/-- One pass of `Construct.link` over the entries of the linkable list at a
single construct (absent entries are skipped; tweaks are not constructs, so
the floating-scope reparent branch does not fire). -/
def linkHere (node : Nat) (lks : List (Option Lkbl)) (w : World) : Except Err World :=
  match lks with
  | [] => .ok w
  | none :: rest => linkHere node rest w
  | some lk :: rest =>
    match (tryLink lk node w).1 with
    | .error e => .error e
    | .ok w1 => linkHere node rest w1

/-- `Construct.link`: try every linkable against this construct, then
recurse into every child with the same list (exceptions abort the whole
traversal).  The fuel bounds the recursion depth through the arena (the
source recurses on the live tree). -/
def link : Nat → Nat → List (Option Lkbl) → World → Except Err World
  | 0, _, _, w => .ok w
  | fuel + 1, node, lks, w => do
    let w ← linkHere node lks w
    (w.childrenOf node).foldlM (fun w c => link fuel c.2 lks w) w

/-- `Construct.constructPath`: walk up while the scope is present and the id
truthy, collecting ids root-first.  Fuel bounds the walk through the arena. -/
def constructPath (fuel : Nat) (w : World) (n : Nat) : List String :=
  match fuel with
  | 0 => []
  | fuel + 1 =>
    match w.scopeOf n, w.idOf n with
    | some s, some i => if i = "" then [] else constructPath fuel w s ++ [i]
    | _, _ => []

/-- `Property.rendered`: scalars pass their value through (none of the
claims' values carries a `render` method), collections render as the array. -/
def renderedProp : PropVal → Value
  | .scalar v => v
  | .collection xs => .arr xs

/-- `Resource.render`: one-entry object keyed by the logical id (the
construct path joined with the empty separator), carrying `Type` and
`Properties`. -/
def render (fuel : Nat) (w : World) (n : Nat) : Value :=
  .obj [(String.join (constructPath fuel w n),
    .obj [("Type", .str (w.resTypeOf n)),
          ("Properties", .obj ((w.propsOf n).map (fun e => (e.1, renderedProp e.2))))])]

/-- Data a `Resource` node carries for rendering: its `resourceType` and its
property record. -/
structure ResData where
  resType : String
  props : List (String × PropVal)
deriving DecidableEq

/-- A construct subtree as `Resource.findAll`/`renderAll` traverse it: the
node's id, its resource data when the node is a `Resource`, and its children
in enumeration order.  (Every child registered by the `Construct`
constructor has a non-empty id, so the id is a plain string here.) -/
inductive CTree where
  | node : String → Option ResData → List CTree → CTree

mutual

/-- Number of nodes of a subtree. -/
def tsize : CTree → Nat
  | .node _ _ cs => 1 + tsizeL cs

/-- Number of nodes of a forest. -/
def tsizeL : List CTree → Nat
  | [] => 0
  | c :: cs => tsize c + tsizeL cs

end

/-- Number of nodes in a BFS queue of (parent path, subtree) entries. -/
def qsize : List (List String × CTree) → Nat
  | [] => 0
  | e :: rest => tsize e.2 + qsize rest

theorem qsize_append (a b : List (List String × CTree)) :
    qsize (a ++ b) = qsize a + qsize b := by
  induction a with
  | nil => simp [qsize]
  | cons e rest ih => simp [qsize, ih]; omega

theorem qsize_map (p : List String) (cs : List CTree) :
    qsize (cs.map (fun c => (p, c))) = tsizeL cs := by
  induction cs with
  | nil => simp [qsize, tsizeL]
  | cons c rest ih => simp [qsize, tsizeL, ih]

/-- `Resource.findAll`, on a queue of (parent path, subtree) entries: a
breadth-first traversal (dequeue at the front, enqueue children at the
back) collecting every `Resource` node, here as its construct path paired
with its resource data. -/
def findAllFrom (q : List (List String × CTree)) : List (List String × ResData) :=
  match q with
  | [] => []
  | (p, .node i r cs) :: rest =>
    (match r with | some d => [(p ++ [i], d)] | none => [])
      ++ findAllFrom (rest ++ cs.map (fun c => (p ++ [i], c)))
termination_by qsize q
decreasing_by
  simp only [qsize, qsize_append, qsize_map, tsize]
  omega

/-- `Resource.findAll(root)` for a root scope (a `Root` construct holding
the given children): the root itself has no id and is not a `Resource`. -/
def findAll (roots : List CTree) : List (List String × ResData) :=
  findAllFrom (roots.map (fun c => ([], c)))

/-- Sort key used by `renderAll`: the construct path joined with a slash
separator; `localeCompare` is modelled as code-point string order. -/
def pathKey (p : List String) : String :=
  String.intercalate "/" p

/-- Code-point lexicographic order on character lists, used to model the
string comparison of the sort in `renderAll`. -/
def lexLe : List Char → List Char → Bool
  | [], _ => true
  | _ :: _, [] => false
  | c :: cs, d :: ds =>
    if c < d then true
    else if d < c then false
    else lexLe cs ds

theorem lexLe_total : ∀ a b : List Char, lexLe a b = true ∨ lexLe b a = true := by
  intro a
  induction a with
  | nil => intro b; left; rfl
  | cons c cs ih =>
    intro b
    cases b with
    | nil => right; rfl
    | cons d ds =>
      rcases lt_trichotomy c d with h | h | h
      · left; simp [lexLe, h]
      · subst h
        rcases ih ds with h2 | h2
        · left; simp [lexLe, lt_irrefl, h2]
        · right; simp [lexLe, lt_irrefl, h2]
      · right; simp [lexLe, h]

theorem lexLe_trans : ∀ a b c : List Char,
    lexLe a b = true → lexLe b c = true → lexLe a c = true := by
  intro a
  induction a with
  | nil => intro b c _ _; rfl
  | cons x xs ih =>
    intro b c hab hbc
    cases b with
    | nil => simp [lexLe] at hab
    | cons y ys =>
      cases c with
      | nil => simp [lexLe] at hbc
      | cons z zs =>
        rcases lt_trichotomy x y with hxy | hxy | hxy
        · rcases lt_trichotomy y z with hyz | hyz | hyz
          · simp [lexLe, lt_trans hxy hyz]
          · subst hyz; simp [lexLe, hxy]
          · simp [lexLe, hyz, not_lt_of_gt hyz] at hbc
        · subst hxy
          rcases lt_trichotomy x z with hyz | hyz | hyz
          · simp [lexLe, hyz]
          · subst hyz
            simp only [lexLe, lt_irrefl, if_neg (lt_irrefl x)] at hab hbc ⊢
            exact ih ys zs hab hbc
          · simp [lexLe, hyz, not_lt_of_gt hyz] at hbc
        · simp [lexLe, hxy, not_lt_of_gt hxy] at hab

theorem lexLe_antisymm : ∀ a b : List Char,
    lexLe a b = true → lexLe b a = true → a = b := by
  intro a
  induction a with
  | nil =>
    intro b _ hba
    cases b with
    | nil => rfl
    | cons d ds => simp [lexLe] at hba
  | cons c cs ih =>
    intro b hab hba
    cases b with
    | nil => simp [lexLe] at hab
    | cons d ds =>
      rcases lt_trichotomy c d with h | h | h
      · simp [lexLe, h, not_lt_of_gt h] at hba
      · subst h
        simp only [lexLe, lt_irrefl, if_neg (lt_irrefl c)] at hab hba
        rw [ih ds hab hba]
      · simp [lexLe, h, not_lt_of_gt h] at hab

/-- Code-point comparison of strings (the model of `localeCompare`-based
ordering used by the renderer's sort). -/
def strLe (a b : String) : Bool :=
  lexLe a.data b.data

/-- Comparison used by the sort in `renderAll` (`Array.prototype.sort` is a
stable comparison sort; the model uses a stable sort over this order). -/
def keyLE (a b : List String × ResData) : Prop :=
  strLe (pathKey a.1) (pathKey b.1) = true

instance : DecidableRel keyLE := fun a b =>
  inferInstanceAs (Decidable (strLe (pathKey a.1) (pathKey b.1) = true))

instance : IsTotal (List String × ResData) keyLE :=
  ⟨fun a b => lexLe_total (pathKey a.1).data (pathKey b.1).data⟩

instance : IsTrans (List String × ResData) keyLE :=
  ⟨fun _ _ _ hab hbc => lexLe_trans _ _ _ hab hbc⟩

/-- `Resource.render` of one found resource: the entry keyed by the logical
id (path joined with the empty separator) carrying `Type` and `Properties`. -/
def renderRes (p : List String) (d : ResData) : String × Value :=
  (String.join p,
    .obj [("Type", .str d.resType),
          ("Properties", .obj (d.props.map (fun e => (e.1, renderedProp e.2))))])

/-- `Object.assign(ret, r.render())` for a one-entry object: an existing
key is overwritten in place, a fresh key is appended. -/
def assignOne (doc : List (String × Value)) (kv : String × Value) :
    List (String × Value) :=
  if (doc.lookup kv.1).isSome then
    doc.map (fun e => if e.1 = kv.1 then kv else e)
  else
    doc ++ [kv]

/-- `Resource.renderAll`: find every resource, stabilize by the joined-path
sort key (a stable sort), and merge the rendered one-entry objects into one
document. -/
def renderAll (roots : List CTree) : List (String × Value) :=
  (((findAll roots).insertionSort keyLE).map (fun r => renderRes r.1 r.2)).foldl assignOne []

/-- An observer callback registered on a `Property`, defunctionalized to the
two shapes the claims exercise: the subscription closure a
`DerivedProperty` installs on its source (`(x) => this.set(tx(x))`), and an
external probe that just records what it was called with. -/
inductive DObs where
  | derived : (Value → Value) → Nat → DObs
  | probe : Nat → DObs

/-- Heap of `Property` objects for the observable-property claims: the
current `_value` of each property (`Value.undef` when unset; a
`CollectionProperty` always holds an array), the registered observers in
registration order, and a log of every observer notification in the order
it was delivered. -/
structure PHeap where
  val : Nat → Value
  obs : Nat → List DObs
  log : List (Nat × Value)

/-- Heap with every property unset and no observers. -/
def emptyHeap : PHeap where
  val := fun _ => Value.undef
  obs := fun _ => []
  log := []

mutual

/-- `ScalarProperty.set`: store the value, then `fire` it at every observer
in registration order.  (`changeTrace` is debug metadata and not modelled.)
The fuel bounds the depth of the synchronous re-entrant `set` calls made by
derived-property observers; it is not part of the source, which would loop
forever on a subscription cycle. -/
def scalarSet (fuel : Nat) (p : Nat) (v : Value) (st : PHeap) : PHeap :=
  match fuel with
  | 0 => st
  | fuel + 1 =>
    let st1 : PHeap := { st with val := fun m => if m = p then v else st.val m }
    fireList fuel (st1.obs p) v st1
termination_by (fuel, 0)

/-- `Observable.fire`: synchronous fan-out over a list of observers. -/
def fireList (fuel : Nat) (os : List DObs) (v : Value) (st : PHeap) : PHeap :=
  match os with
  | [] => st
  | o :: rest => fireList fuel rest v (runObs fuel o v st)
termination_by (fuel, 2 + os.length)

/-- Invocation of one observer callback. -/
def runObs (fuel : Nat) (o : DObs) (v : Value) (st : PHeap) : PHeap :=
  match o with
  | .derived tx tgt => scalarSet fuel tgt (tx v) st
  | .probe i => { st with log := st.log ++ [(i, v)] }
termination_by (fuel, 1)

end

/-- `Property.addObserver`: register the observer, then notify it
immediately when the property's value is not `undefined`.  This is the
subscribe path of `ScalarProperty` and the `super.addObserver` call of
`CollectionProperty`. -/
def propertyAddObserver (fuel : Nat) (p : Nat) (o : DObs) (st : PHeap) : PHeap :=
  let st1 : PHeap := { st with obs := fun m => if m = p then st.obs m ++ [o] else st.obs m }
  match st1.val p with
  | .undef => st1
  | v => runObs fuel o v st1

/-- `CollectionProperty.addObserver`: `super.addObserver(obs)` (which
already notifies, since a collection's value is an array and never
`undefined`), followed by the subclass's own immediate notification. -/
def collectionAddObserver (fuel : Nat) (p : Nat) (o : DObs) (st : PHeap) : PHeap :=
  let st1 := propertyAddObserver fuel p o st
  match st1.val p with
  | .undef => st1
  | v => runObs fuel o v st1

/-- The `DerivedProperty` constructor: the fresh property starts unset with
no observers (`super()`), then subscribes `(x) => this.set(tx(x))` to the
observed property via `Property.addObserver`, which replays the observed
property's current value immediately when it is set. -/
def mkDerived (fuel : Nat) (src tgt : Nat) (tx : Value → Value) (st : PHeap) : PHeap :=
  let st1 : PHeap := { st with
    val := fun m => if m = tgt then Value.undef else st.val m
    obs := fun m => if m = tgt then [] else st.obs m }
  propertyAddObserver fuel src (.derived tx tgt) st1

/-- State of one `LinkRelationship`: its stored construct reference (a
construct index; `none` is `undefined`), its observers in registration
order (probe identities), and the log of notifications delivered. -/
structure LRState where
  value : Option Nat
  observers : List Nat
  nlog : List (Nat × Nat)

/-- `LinkRelationship.set`: fail when a value is already present (the state
next to the error is the unchanged relationship), otherwise store the value
and fire every observer synchronously in registration order. -/
def lrSet (x : Nat) (st : LRState) : Except Err Unit × LRState :=
  match st.value with
  | some _ => (.error .alreadyLinked, st)
  | none =>
    (.ok (), { st with
      value := some x
      nlog := st.nlog ++ st.observers.map (fun o => (o, x)) })

/-- `LinkRelationship.addObserver`: register (the superclass is the bare
`Observable`, which only pushes), then notify immediately when a value is
present. -/
def lrAddObserver (o : Nat) (st : LRState) : LRState :=
  let st1 : LRState := { st with observers := st.observers ++ [o] }
  match st1.value with
  | some v => { st1 with nlog := st1.nlog ++ [(o, v)] }
  | none => st1

theorem lookup_overwrite (ps : List (String × PropVal)) (name : String) (pv : PropVal)
    (h : (ps.lookup name).isSome) :
    ((ps.map (fun e => if e.1 = name then (name, pv) else e)).lookup name) = some pv := by
  induction ps with
  | nil => simp [List.lookup] at h
  | cons e rest ih =>
    obtain ⟨k, x⟩ := e
    by_cases hk : k = name
    · subst hk
      simp only [List.map]
      simp [List.lookup]
    · have hb : (name == k) = false := by
        rw [beq_eq_false_iff_ne]
        exact fun hh => hk hh.symm
      simp only [List.lookup, hb] at h
      simp only [List.map]
      rw [if_neg hk]
      simp only [List.lookup, hb]
      exact ih h

/-- C4: `tryLink(linkable, node)` invokes the linkable's attach operation on
the node exactly when the linkable's target tags and the node's advertised
tags intersect; for disjoint tag sets the call returns with the node (and
the whole world) unchanged and the `result` flag false. -/
theorem tryLink_capability_matching (lk : Lkbl) (n : Nat) (w : World) :
    ((lkTargets lk).toFinset ∩ (w.advertisesOf n).toFinset = ∅ →
      tryLink lk n w = (.ok w, false)) ∧
    ((lkTargets lk).toFinset ∩ (w.advertisesOf n).toFinset ≠ ∅ →
      tryLink lk n w =
        (match lkLinkTo lk n w with
         | .ok w1 => (.ok w1, true)
         | .error e => (.error e, false))) := by
  have key : ((lkTargets lk).any (fun t => (w.advertisesOf n).contains t) = true) ↔
      (lkTargets lk).toFinset ∩ (w.advertisesOf n).toFinset ≠ ∅ := by
    rw [List.any_eq_true]
    constructor
    · rintro ⟨t, ht, hc⟩ hemp
      have hmem : t ∈ (lkTargets lk).toFinset ∩ (w.advertisesOf n).toFinset := by
        rw [Finset.mem_inter, List.mem_toFinset, List.mem_toFinset]
        exact ⟨ht, by simpa using hc⟩
      simp [hemp] at hmem
    · intro hne
      rcases Finset.nonempty_iff_ne_empty.2 hne with ⟨t, htmem⟩
      rw [Finset.mem_inter, List.mem_toFinset, List.mem_toFinset] at htmem
      exact ⟨t, htmem.1, by simpa using htmem.2⟩
  constructor
  · intro h
    have hfalse : (lkTargets lk).any (fun t => (w.advertisesOf n).contains t) = false := by
      rw [Bool.eq_false_iff]
      intro hh
      exact (key.1 hh) h
    simp only [tryLink]
    rw [hfalse]
    rfl
  · intro h
    have htrue := key.2 h
    simp only [tryLink]
    rw [htrue]
    rfl

/-- Witness for C4 at a concrete disjoint input. -/
theorem tryLink_capability_matching_witness :
    tryLink (Lkbl.scalarTweak "AWS::S3::Bucket" "BucketName" (Value.str "v")) 0 emptyWorld
      = (.ok emptyWorld, false) :=
  (tryLink_capability_matching _ 0 emptyWorld).1 (by decide)

/-- World of a single resource (index 1) with an unset scalar property `P`
and a collection property `C`, used as a concrete instance. -/
def tweakWorld : World :=
  (emptyWorld.setResource 1 "T").setProps 1 [("P", .scalar .undef), ("C", .collection [])]

/-- C6: attaching a scalar tweak to a matched resource fails with the
unknown-property error when the property name is absent, with the
type-mismatch error when the property is a collection, with the
already-set error when the scalar holds a value; otherwise it sets the
scalar to the carried value — after which a second scalar tweak for the
same property (carrying a proper value the first time) fails with the
already-set error. -/
theorem scalarTweak_attach_cases (w : World) (name : String) (v : Value) (res : Nat)
    (hres : w.isResource res = true) :
    ((w.propsOf res).lookup name = none →
      scalarTweakLinkTo name v res w = .error (.unknownProperty name)) ∧
    (∀ xs, (w.propsOf res).lookup name = some (.collection xs) →
      scalarTweakLinkTo name v res w = .error .scalarTypeMismatch) ∧
    (∀ cur, (w.propsOf res).lookup name = some (.scalar cur) → cur ≠ Value.undef →
      scalarTweakLinkTo name v res w = .error .scalarAlreadySet) ∧
    ((w.propsOf res).lookup name = some (.scalar .undef) →
      ∃ w1, scalarTweakLinkTo name v res w = .ok w1 ∧
        (w1.propsOf res).lookup name = some (.scalar v)) ∧
    (v ≠ Value.undef →
      ∀ w1, scalarTweakLinkTo name v res w = .ok w1 →
        ∀ v2, scalarTweakLinkTo name v2 res w1 = .error .scalarAlreadySet) := by
  refine ⟨?_, ?_, ?_, ?_, ?_⟩
  · intro h
    simp [scalarTweakLinkTo, hres, h]
  · intro xs h
    simp [scalarTweakLinkTo, hres, h]
  · intro cur h hcur
    cases cur with
    | undef => exact absurd rfl hcur
    | str s => simp [scalarTweakLinkTo, hres, h]
    | arr xs => simp [scalarTweakLinkTo, hres, h]
    | obj fs => simp [scalarTweakLinkTo, hres, h]
  · intro h
    refine ⟨w.setProps res ((w.propsOf res).map
        (fun e => if e.1 = name then (name, PropVal.scalar v) else e)), ?_, ?_⟩
    · simp [scalarTweakLinkTo, hres, h]
    · have hs : ((w.propsOf res).lookup name).isSome := by rw [h]; rfl
      simp only [World.setProps, if_pos rfl]
      exact lookup_overwrite _ _ _ hs
  · intro hv w1 hok v2
    have hcases := hres
    by_cases hres1 : w.isResource res = true
    · have hlk : (w.propsOf res).lookup name = some (.scalar .undef) := by
        by_contra hne
        simp only [scalarTweakLinkTo, hres, Bool.not_true, Bool.false_eq_true,
          if_false] at hok
        rcases hlook : (w.propsOf res).lookup name with _ | pv
        · rw [hlook] at hok; simp at hok
        · rcases pv with v0 | xs
          · rcases v0 with _ | s | xs | fs
            · exact hne hlook
            all_goals (rw [hlook] at hok; simp at hok)
          · rw [hlook] at hok; simp at hok
      have hw1 : w1 = w.setProps res ((w.propsOf res).map
          (fun e => if e.1 = name then (name, PropVal.scalar v) else e)) := by
        simp only [scalarTweakLinkTo, hres, Bool.not_true, Bool.false_eq_true,
          if_false, hlk] at hok
        exact (Except.ok.inj hok).symm
      have hres2 : w1.isResource res = true := by
        rw [hw1]; simpa [World.setProps] using hres
      have hlook2 : (w1.propsOf res).lookup name = some (.scalar v) := by
        rw [hw1]
        simp only [World.setProps, if_pos rfl]
        exact lookup_overwrite _ _ _ (by rw [hlk]; rfl)
      cases v with
      | undef => exact absurd rfl hv
      | str s => simp [scalarTweakLinkTo, hres2, hlook2]
      | arr xs => simp [scalarTweakLinkTo, hres2, hlook2]
      | obj fs => simp [scalarTweakLinkTo, hres2, hlook2]
    · exact absurd hres hres1

/-- Witness for C6 at concrete inputs: unknown property on `tweakWorld`. -/
theorem scalarTweak_attach_cases_witness :
    scalarTweakLinkTo "Absent" (Value.str "x") 1 tweakWorld
      = .error (.unknownProperty "Absent") :=
  (scalarTweak_attach_cases tweakWorld "Absent" (Value.str "x") 1 (by decide)).1 (by decide)

/-- C5: on a `LinkRelationship` with no stored value, a first `set` succeeds,
stores the node, and synchronously notifies every registered observer in
registration order; a second `set` then fails with the already-linked error
and leaves the stored value unchanged; and an observer registered after the
successful `set` is notified immediately with the stored value. -/
theorem linkRelationship_set_once (st : LRState) (x y : Nat) (h : st.value = none) :
    (lrSet x st).1 = .ok () ∧
    (lrSet x st).2.value = some x ∧
    (lrSet x st).2.nlog = st.nlog ++ st.observers.map (fun o => (o, x)) ∧
    (lrSet y (lrSet x st).2).1 = .error .alreadyLinked ∧
    (lrSet y (lrSet x st).2).2.value = some x ∧
    (∀ o, (lrAddObserver o (lrSet x st).2).nlog = (lrSet x st).2.nlog ++ [(o, x)]) := by
  refine ⟨?_, ?_, ?_, ?_, ?_, ?_⟩ <;>
    simp [lrSet, lrAddObserver, h]

/-- Witness for C5 on a concrete relationship with one observer. -/
theorem linkRelationship_set_once_witness :
    (lrSet 4 ⟨none, [7], []⟩).1 = .ok () ∧
    (lrSet 4 ⟨none, [7], []⟩).2.value = some 4 ∧
    (lrSet 4 ⟨none, [7], []⟩).2.nlog
      = ([] : List (Nat × Nat)) ++ [7].map (fun o => (o, 4)) ∧
    (lrSet 5 (lrSet 4 ⟨none, [7], []⟩).2).1 = .error .alreadyLinked ∧
    (lrSet 5 (lrSet 4 ⟨none, [7], []⟩).2).2.value = some 4 ∧
    (∀ o, (lrAddObserver o (lrSet 4 ⟨none, [7], []⟩).2).nlog
      = (lrSet 4 ⟨none, [7], []⟩).2.nlog ++ [(o, 4)]) :=
  linkRelationship_set_once ⟨none, [7], []⟩ 4 5 rfl

/-- C10: registering an observer on a `CollectionProperty` notifies it twice
within the `addObserver` call, both times with the current contents (also
when the collection is empty), because the override fires again after
`Property.addObserver` already fired; on a `ScalarProperty` the immediate
notification happens exactly once and only when a value is present, and the
same holds for a `LinkRelationship`. -/
theorem collection_addObserver_fires_twice :
    (∀ fuel p i st xs, st.val p = Value.arr xs →
      (collectionAddObserver fuel p (.probe i) st).log
        = st.log ++ [(i, Value.arr xs), (i, Value.arr xs)]) ∧
    (∀ fuel p i st v, st.val p = v → v ≠ Value.undef →
      (propertyAddObserver fuel p (.probe i) st).log = st.log ++ [(i, v)]) ∧
    (∀ fuel p i st, st.val p = Value.undef →
      (propertyAddObserver fuel p (.probe i) st).log = st.log) ∧
    (∀ st o v, st.value = some v →
      (lrAddObserver o st).nlog = st.nlog ++ [(o, v)]) ∧
    (∀ st o, st.value = none → (lrAddObserver o st).nlog = st.nlog) := by
  have hprop : ∀ fuel p i (st : PHeap) v, st.val p = v → v ≠ Value.undef →
      (propertyAddObserver fuel p (.probe i) st).log = st.log ++ [(i, v)] := by
    intro fuel p i st v hval hv
    cases v with
    | undef => exact absurd rfl hv
    | str s => simp [propertyAddObserver, runObs, hval]
    | arr xs => simp [propertyAddObserver, runObs, hval]
    | obj fs => simp [propertyAddObserver, runObs, hval]
  refine ⟨?_, hprop, ?_, ?_, ?_⟩
  · intro fuel p i st xs hval
    have h1 : (propertyAddObserver fuel p (.probe i) st).log
        = st.log ++ [(i, Value.arr xs)] := hprop fuel p i st _ hval (by intro h; cases h)
    have h2 : (propertyAddObserver fuel p (.probe i) st).val p = Value.arr xs := by
      simp [propertyAddObserver, runObs, hval]
    simp only [collectionAddObserver, h2]
    simp [runObs, h1]
  · intro fuel p i st hval
    simp [propertyAddObserver, hval]
  · intro st o v h
    simp [lrAddObserver, h]
  · intro st o h
    simp [lrAddObserver, h]

/-- Witness for C10 on a concrete heap: an empty collection at index 3
notifies the fresh observer twice with the empty array. -/
theorem collection_addObserver_fires_twice_witness :
    (collectionAddObserver 2 3 (.probe 9)
        { emptyHeap with val := fun m => if m = 3 then Value.arr [] else Value.undef }).log
      = ([] : List (Nat × Value)) ++ [(9, Value.arr []), (9, Value.arr [])] :=
  collection_addObserver_fires_twice.1 2 3 9
    { emptyHeap with val := fun m => if m = 3 then Value.arr [] else Value.undef } [] rfl

/-- C3: evidence that the invalid-identity guard of the `Construct`
constructor never fires.  The source compares `id` and `_scope` against
`null` with `===`, but the absent value of these `T | undefined` parameters
is `undefined`, so construction with exactly one of (scope, id) absent
succeeds instead of failing — with scope present and id absent the node is
silently created without being registered as a child.  (The thrown message
text documents the intended behaviour that the spec states.) -/
theorem construct_one_absent_succeeds :
    constructInit emptyWorld 2 (some 1) none
      = .ok ((emptyWorld.setScope 2 (some 1)).setId 2 none) ∧
    ((emptyWorld.setScope 2 (some 1)).setId 2 none).childrenOf 1 = [] ∧
    constructInit emptyWorld 2 none (some "Orphan")
      = .ok ((emptyWorld.setScope 2 none).setId 2 (some "Orphan")) := by
  refine ⟨rfl, rfl, rfl⟩

/-- Concrete world for the reparenting counterexample: construct 1 has id
"a" and is owned by the floating scope (0), whose children record holds it;
construct 2 already owns a child under the id "a" (construct 3). -/
def reparentWorld : World :=
  (((emptyWorld.setScope 1 (some 0)).setId 1 (some "a")).setChildren 0
      [("a", 1)]).setChildren 2 [("a", 3)]

/-- C1 counterexample: reparenting construct 1 (owned by the floating
scope) onto construct 2 fails with the conflict error, but the tree state
is not unchanged — construct 1 has already been removed from the floating
scope's children by the time the error is thrown. -/
theorem reparent_conflict_not_atomic :
    (reparentTo 1 2 reparentWorld).1 = .error (.reparentConflict "a") ∧
    reparentWorld.childrenOf 0 = [("a", 1)] ∧
    (reparentTo 1 2 reparentWorld).2.childrenOf 0 = [] ∧
    (reparentTo 1 2 reparentWorld).2.scopeOf 1 = some 0 := by
  refine ⟨rfl, rfl, rfl, rfl⟩

/-- C1 (amended): for a construct owned by the floating scope,
`reparentTo` fails with the conflict error exactly when the destination
already has a child with the construct's id; on failure the construct has
already been removed from the floating scope's children while its parent
reference still points at the floating scope; on success the construct is
removed from the floating scope's children, appended to the destination's
children under its id, and its parent reference is updated. -/
theorem reparent_floating_cases (w : World) (n np : Nat) (i : String)
    (hscope : w.scopeOf n = some 0) (hid : w.idOf n = some i) (hne : i ≠ "")
    (hnp : np ≠ 0) :
    (((w.childrenOf np).lookup i).isSome = true →
      (reparentTo n np w).1 = .error (.reparentConflict i) ∧
      (reparentTo n np w).2.childrenOf 0
        = (w.childrenOf 0).filter (fun e => e.2 ≠ n) ∧
      (reparentTo n np w).2.scopeOf n = some 0 ∧
      (reparentTo n np w).2.childrenOf np = w.childrenOf np) ∧
    (((w.childrenOf np).lookup i).isSome = false →
      (reparentTo n np w).1 = .ok () ∧
      (reparentTo n np w).2.childrenOf 0
        = (w.childrenOf 0).filter (fun e => e.2 ≠ n) ∧
      (reparentTo n np w).2.childrenOf np = w.childrenOf np ++ [(i, n)] ∧
      (reparentTo n np w).2.scopeOf n = some np) := by
  have hnp2 : ¬ (np = 0) := hnp
  have hnp3 : ¬ (0 = np) := fun h => hnp h.symm
  constructor
  · intro hconf
    have hc2 : (((w.setChildren 0 ((w.childrenOf 0).filter
        (fun e => e.2 ≠ n))).childrenOf np).lookup i).isSome = true := by
      simpa [World.setChildren, hnp2] using hconf
    simp only [reparentTo, hscope, hid, if_neg hne, hc2]
    refine ⟨rfl, ?_, ?_, ?_⟩
    · simp [World.setChildren]
    · simpa using hscope
    · simp [World.setChildren, hnp2]
  · intro hconf
    have hc2 : (((w.setChildren 0 ((w.childrenOf 0).filter
        (fun e => e.2 ≠ n))).childrenOf np).lookup i).isSome = false := by
      simpa [World.setChildren, hnp2] using hconf
    simp only [reparentTo, hscope, hid, if_neg hne, hc2]
    refine ⟨rfl, ?_, ?_, ?_⟩
    · simp [World.setScope, World.setChildren, hnp2, hnp3]
    · simp [World.setScope, World.setChildren, hnp2, hnp3]
    · simp [World.setScope, World.setChildren]

/-- Witness for C1 (amended) at the concrete conflicting input. -/
theorem reparent_floating_cases_witness :
    (reparentTo 1 2 reparentWorld).1 = .error (.reparentConflict "a") ∧
    (reparentTo 1 2 reparentWorld).2.childrenOf 0
      = (reparentWorld.childrenOf 0).filter (fun e => e.2 ≠ 1) ∧
    (reparentTo 1 2 reparentWorld).2.scopeOf 1 = some 0 ∧
    (reparentTo 1 2 reparentWorld).2.childrenOf 2 = reparentWorld.childrenOf 2 :=
  (reparent_floating_cases reparentWorld 1 2 "a" rfl rfl (by decide) (by decide)).1 (by decide)

theorem pheap_obs_invariant : ∀ fuel,
    (∀ p v st, (scalarSet fuel p v st).obs = st.obs) ∧
    (∀ o v st, (runObs fuel o v st).obs = st.obs) ∧
    (∀ os v st, (fireList fuel os v st).obs = st.obs) := by
  intro fuel
  induction fuel with
  | zero =>
    have hs : ∀ p v (st : PHeap), (scalarSet 0 p v st).obs = st.obs := by
      intro p v st
      simp [scalarSet]
    have hr : ∀ o v (st : PHeap), (runObs 0 o v st).obs = st.obs := by
      intro o v st
      cases o with
      | derived tx tgt => simp [runObs, hs]
      | probe oid => simp [runObs]
    have hf : ∀ os v (st : PHeap), (fireList 0 os v st).obs = st.obs := by
      intro os
      induction os with
      | nil => intro v st; simp [fireList]
      | cons o rest ih =>
        intro v st
        have := ih v (runObs 0 o v st)
        simp only [fireList]
        rw [ih, hr]
    exact ⟨hs, hr, hf⟩
  | succ f ihf =>
    have hs : ∀ p v (st : PHeap), (scalarSet (f + 1) p v st).obs = st.obs := by
      intro p v st
      simp only [scalarSet]
      rw [ihf.2.2]
    have hr : ∀ o v (st : PHeap), (runObs (f + 1) o v st).obs = st.obs := by
      intro o v st
      cases o with
      | derived tx tgt => simp [runObs, hs]
      | probe oid => simp [runObs]
    have hf : ∀ os v (st : PHeap), (fireList (f + 1) os v st).obs = st.obs := by
      intro os
      induction os with
      | nil => intro v st; simp [fireList]
      | cons o rest ih =>
        intro v st
        simp only [fireList]
        rw [ih, hr]
    exact ⟨hs, hr, hf⟩

/-- One upstream `set` on the scalar at index 0 observed only by the derived
property at index 1 (which itself has no observers): the derived value is
recomputed synchronously inside the `set` call. -/
theorem scalarSet_derived_step (f : Nat) (tx : Value → Value) (st : PHeap) (v : Value)
    (h0 : st.obs 0 = [.derived tx 1]) (h1 : st.obs 1 = []) :
    (scalarSet (f + 2) 0 v st).val 1 = tx v ∧
    (scalarSet (f + 2) 0 v st).obs = st.obs := by
  refine ⟨?_, (pheap_obs_invariant _).1 0 v st⟩
  simp only [scalarSet]
  have hst1 : ({ st with val := fun m => if m = 0 then v else st.val m } : PHeap).obs
      = st.obs := rfl
  rw [hst1, h0]
  simp only [fireList, runObs, scalarSet]
  rw [show (({ st with val := fun m => if m = 0 then v else st.val m } : PHeap).obs 1) = []
    from h1]
  simp only [fireList]
  simp

/-- C7: with a scalar at index 0 and `Derived(s, tx)` at index 1 built by
the `DerivedProperty` constructor, after any `set(v)` on the scalar —
preceded by an arbitrary sequence of earlier sets — the derived value
equals `tx v`, recomputed synchronously inside the upstream `set` call; and
when the scalar already holds a value at construction time, the derived
property is recomputed once immediately during construction.  (The fuel
`f + 2` covers the two-deep synchronous call chain of this configuration.) -/
theorem derived_recompute (f : Nat) (tx : Value → Value) (vs : List Value) (v w : Value) :
    (scalarSet (f + 2) 0 v
        (vs.foldl (fun st u => scalarSet (f + 2) 0 u st)
          (mkDerived (f + 2) 0 1 tx emptyHeap))).val 1
      = tx v ∧
    (w ≠ Value.undef →
      (mkDerived (f + 2) 0 1 tx
        { emptyHeap with val := fun m => if m = 0 then w else Value.undef }).val 1
        = tx w) := by
  constructor
  · have hbase0 : (mkDerived (f + 2) 0 1 tx emptyHeap).obs 0 = [.derived tx 1] := rfl
    have hbase1 : (mkDerived (f + 2) 0 1 tx emptyHeap).obs 1 = [] := rfl
    have hfold : ∀ (l : List Value) (st : PHeap),
        (l.foldl (fun st u => scalarSet (f + 2) 0 u st) st).obs = st.obs := by
      intro l
      induction l with
      | nil => intro st; rfl
      | cons u rest ih =>
        intro st
        rw [List.foldl_cons, ih, (pheap_obs_invariant (f + 2)).1]
    exact (scalarSet_derived_step f tx _ v
      (by rw [hfold]; exact hbase0) (by rw [hfold]; exact hbase1)).1
  · intro hw
    cases w with
    | undef => exact absurd rfl hw
    | str s => simp [mkDerived, propertyAddObserver, runObs, scalarSet, fireList, emptyHeap]
    | arr xs => simp [mkDerived, propertyAddObserver, runObs, scalarSet, fireList, emptyHeap]
    | obj fs => simp [mkDerived, propertyAddObserver, runObs, scalarSet, fireList, emptyHeap]

/-- Witness for C7 with a concrete transform and value sequence. -/
theorem derived_recompute_witness :
    (scalarSet 2 0 (Value.str "b")
        ([Value.str "a"].foldl (fun st u => scalarSet 2 0 u st)
          (mkDerived 2 0 1 (fun u => Value.arr [u]) emptyHeap))).val 1
      = Value.arr [Value.str "b"] ∧
    (mkDerived 2 0 1 (fun u => Value.arr [u])
        { emptyHeap with val := fun m => if m = 0 then Value.str "c" else Value.undef }).val 1
      = Value.arr [Value.str "c"] :=
  ⟨(derived_recompute 0 (fun u => Value.arr [u]) [Value.str "a"] (Value.str "b") Value.undef).1,
   (derived_recompute 0 (fun u => Value.arr [u]) [] Value.undef (Value.str "c")).2 (by decide)⟩

/-- The concrete-scenario world: a fresh `Root` at index 1, then a `Bucket`
named "Bucket" under it at index 2, constructed with empty props and the
two linkables `Bucket.BucketName("MyBucket")` and
`Bucket.Tag("CostCenter", "1234")` — the `Bucket` constructor registers the
resource, advertises its type tag, declares the `BucketName`,
`LoggingConfiguration` and `Tags` properties, and links the tweak list
(whose first entry is the absent `props?.bucketName` tweak). -/
def c8World : Except Err World := do
  let w ← constructInit emptyWorld 1 none none
  let w ← resourceInit w 2 (some 1) (some "Bucket") "AWS::S3::Bucket"
  let w := makeLinkableAs w 2 ["AWS::S3::Bucket"]
  let w ← addProperty w 2 "BucketName" (.scalar .undef)
  let w ← addProperty w 2 "LoggingConfiguration" (.scalar .undef)
  let w ← addProperty w 2 "Tags" (.collection [])
  link 9 2
    [none,
     some (.scalarTweak "AWS::S3::Bucket" "BucketName" (.str "MyBucket")),
     some (.collectionTweak "AWS::S3::Bucket" "Tags"
       (.obj [("Key", .str "CostCenter"), ("Value", .str "1234")]))] w

/-- What the source actually renders for the concrete scenario. -/
def c8Actual : Value :=
  .obj [("Bucket", .obj [
    ("Type", .str "AWS::S3::Bucket"),
    ("Properties", .obj [
      ("BucketName", .str "MyBucket"),
      ("LoggingConfiguration", .undef),
      ("Tags", .arr [.obj [("Key", .str "CostCenter"), ("Value", .str "1234")]])])])]

/-- The document the claim says the scenario renders to. -/
def c8Claimed : Value :=
  .obj [("Bucket", .obj [
    ("type", .str "S3::Bucket"),
    ("properties", .obj [
      ("BucketName", .str "MyBucket"),
      ("Tags", .arr [.obj [("Key", .str "CostCenter"), ("Value", .str "1234")]])])])]

/-- C8 (amended): the concrete scenario builds successfully and renders to
the entry keyed by the logical id "Bucket" with capitalized `Type` and
`Properties` fields, the full resource type `AWS::S3::Bucket`, and all
three declared properties — including the unset `LoggingConfiguration`
scalar, which renders as `undefined`. -/
theorem bucket_scenario_render :
    c8World.map (fun w => render 9 w 2) = .ok c8Actual := rfl

/-- C8 counterexample: the rendered document is not the document the claim
states (lower-case `type`/`properties` keys, bare `S3::Bucket` type, no
`LoggingConfiguration` entry). -/
theorem bucket_scenario_render_ne_claimed :
    c8World.map (fun w => render 9 w 2) ≠ .ok c8Claimed := by
  have hcomp : c8World.map (fun w => render 9 w 2) = Except.ok c8Actual := rfl
  rw [hcomp]
  intro h
  injection h with h2
  exact absurd h2 (by decide)

theorem lookup_append_right {α β : Type} [BEq α] (l1 l2 : List (α × β)) (k : α)
    (h : l1.lookup k = none) : (l1 ++ l2).lookup k = l2.lookup k := by
  induction l1 with
  | nil => rfl
  | cons e rest ih =>
    obtain ⟨a, b⟩ := e
    rcases hka : (k == a) with _ | _
    · simp only [List.lookup, hka] at h
      simp only [List.cons_append, List.lookup, hka]
      exact ih h
    · simp only [List.lookup, hka] at h
      cases h

theorem foldl_assign_disjoint (l : List (String × Value)) :
    ∀ doc : List (String × Value), (l.map Prod.fst).Nodup →
      (∀ k ∈ l.map Prod.fst, doc.lookup k = none) →
      List.foldl assignOne doc l = doc ++ l := by
  induction l with
  | nil => intro doc _ _; simp
  | cons e t ih =>
    intro doc hnd hdis
    obtain ⟨k, v⟩ := e
    have hk : doc.lookup k = none := hdis k (by simp)
    have hstep : assignOne doc (k, v) = doc ++ [(k, v)] := by
      simp [assignOne, hk]
    rw [List.foldl_cons, hstep]
    have hnd2 : (t.map Prod.fst).Nodup := (List.nodup_cons.mp (by simpa using hnd)).2
    have hknot : k ∉ t.map Prod.fst := (List.nodup_cons.mp (by simpa using hnd)).1
    have hdis2 : ∀ k2 ∈ t.map Prod.fst, (doc ++ [(k, v)]).lookup k2 = none := by
      intro k2 hk2
      rw [lookup_append_right _ _ _ (hdis k2 (by simp [hk2]))]
      have hne : (k2 == k) = false := by
        rw [beq_eq_false_iff_ne]
        intro hh
        exact hknot (hh ▸ hk2)
      simp [List.lookup, hne]
    rw [ih (doc ++ [(k, v)]) hnd2 hdis2, List.append_assoc]
    rfl

theorem lookup_mem_nodup (l : List (String × Value)) (k : String) (v : Value)
    (hmem : (k, v) ∈ l) (hnd : (l.map Prod.fst).Nodup) : l.lookup k = some v := by
  induction l with
  | nil => cases hmem
  | cons e t ih =>
    obtain ⟨a, b⟩ := e
    rcases List.mem_cons.mp hmem with hh | ht
    · obtain ⟨h1, h2⟩ := Prod.mk.inj hh
      subst h1; subst h2
      simp [List.lookup]
    · have hknot : a ∉ t.map Prod.fst := (List.nodup_cons.mp (by simpa using hnd)).1
      have hne : (k == a) = false := by
        rw [beq_eq_false_iff_ne]
        intro hh
        subst hh
        exact hknot (List.mem_map.mpr ⟨(k, v), ht, rfl⟩)
      simp only [List.lookup, hne]
      exact ih ht (List.nodup_cons.mp (by simpa using hnd)).2

/-- Two resources whose distinct paths produce the same logical id: the
resource "AB" at the top level and the resource "B" under the non-resource
construct "A" (logical ids concatenate the path without a separator). -/
def dupIdTrees : List CTree :=
  [.node "AB" (some ⟨"T1", []⟩) [],
   .node "A" none [.node "B" (some ⟨"T2", []⟩) []]]

/-- C2 counterexample: two resources render to the same logical-id key
"AB", yet `renderAll` raises no duplicate-id error — it is a total merge in
which the entry assigned later in sort order silently overwrites the
earlier one, so the final document holds only one of the two resources. -/
theorem renderAll_duplicate_key_overwrites :
    findAll dupIdTrees = [(["AB"], ⟨"T1", []⟩), (["A", "B"], ⟨"T2", []⟩)] ∧
    String.join ["AB"] = String.join ["A", "B"] ∧
    renderAll dupIdTrees
      = [("AB", Value.obj [("Type", .str "T1"), ("Properties", .obj [])])] := by
  have hf : findAll dupIdTrees = [(["AB"], ⟨"T1", []⟩), (["A", "B"], ⟨"T2", []⟩)] := by
    simp [findAll, findAllFrom, dupIdTrees]
  refine ⟨hf, by decide, ?_⟩
  rw [renderAll, hf]
  decide

/-- C2 (amended): `renderAll` collects all resources, sorts them by joined
path, and merges their rendered entries; when all logical ids are distinct
every resource's entry appears in the document under its logical id (but on
a duplicated logical id the merge silently overwrites — no error exists). -/
theorem renderAll_distinct_ids_complete (roots : List CTree)
    (hnd : ((findAll roots).map (fun e => String.join e.1)).Nodup) :
    ∀ e ∈ findAll roots,
      (renderAll roots).lookup (String.join e.1) = some (renderRes e.1 e.2).2 := by
  intro e he
  have hperm : ((findAll roots).insertionSort keyLE).Perm (findAll roots) :=
    List.perm_insertionSort keyLE _
  have hkeys : (((findAll roots).insertionSort keyLE).map
        (fun r => renderRes r.1 r.2)).map Prod.fst
      = ((findAll roots).insertionSort keyLE).map (fun r => String.join r.1) := by
    rw [List.map_map]
    rfl
  have hnd2 : ((((findAll roots).insertionSort keyLE).map
      (fun r => renderRes r.1 r.2)).map Prod.fst).Nodup := by
    rw [hkeys]
    exact (List.Perm.nodup_iff (hperm.map (fun r => String.join r.1))).mpr hnd
  have hfold : List.foldl assignOne []
        (((findAll roots).insertionSort keyLE).map (fun r => renderRes r.1 r.2))
      = ((findAll roots).insertionSort keyLE).map (fun r => renderRes r.1 r.2) := by
    rw [foldl_assign_disjoint _ [] hnd2 (fun k _ => rfl)]
    rfl
  have hra : renderAll roots
      = ((findAll roots).insertionSort keyLE).map (fun r => renderRes r.1 r.2) := by
    rw [renderAll]
    exact hfold
  have hmem : (String.join e.1, (renderRes e.1 e.2).2)
      ∈ ((findAll roots).insertionSort keyLE).map (fun r => renderRes r.1 r.2) :=
    List.mem_map.mpr ⟨e, hperm.mem_iff.mpr he, rfl⟩
  rw [hra]
  exact lookup_mem_nodup _ _ _ hmem hnd2

/-- Witness for C2 (amended) on a one-resource tree. -/
theorem renderAll_distinct_ids_complete_witness :
    (renderAll [CTree.node "X" (some ⟨"T", []⟩) []]).lookup (String.join ["X"])
      = some (renderRes ["X"] ⟨"T", []⟩).2 :=
  renderAll_distinct_ids_complete [CTree.node "X" (some ⟨"T", []⟩) []]
    (by simp [findAll, findAllFrom])
    (["X"], ⟨"T", []⟩)
    (by simp [findAll, findAllFrom])

/-- C9 (amended): `renderAll` is a function of the set of (path, resource)
pairs alone — two trees whose `findAll` results are permutations of each
other render to the same document — provided the joined-path sort keys
distinguish the resources (which holds in particular whenever ids contain
no slash; ids containing slashes can collide, see the counterexample). -/
theorem renderAll_insertion_order_independent (t1 t2 : List CTree)
    (hperm : (findAll t1).Perm (findAll t2))
    (hinj : ∀ a ∈ findAll t1, ∀ b ∈ findAll t1,
      pathKey a.1 = pathKey b.1 → a = b) :
    renderAll t1 = renderAll t2 := by
  have h1 : ((findAll t1).insertionSort keyLE).Perm (findAll t1) :=
    List.perm_insertionSort keyLE _
  have h2 : ((findAll t2).insertionSort keyLE).Perm (findAll t2) :=
    List.perm_insertionSort keyLE _
  have hp : ((findAll t1).insertionSort keyLE).Perm ((findAll t2).insertionSort keyLE) :=
    (h1.trans hperm).trans h2.symm
  have hs1 : List.Pairwise keyLE ((findAll t1).insertionSort keyLE) :=
    List.sorted_insertionSort keyLE _
  have hs2 : List.Pairwise keyLE ((findAll t2).insertionSort keyLE) :=
    List.sorted_insertionSort keyLE _
  have heq : (findAll t1).insertionSort keyLE = (findAll t2).insertionSort keyLE := by
    refine List.Perm.eq_of_sorted ?_ hs1 hs2 hp
    intro a b ha hb hab hba
    have ha2 : a ∈ findAll t1 := h1.mem_iff.mp ha
    have hb2 : b ∈ findAll t1 := hperm.symm.mem_iff.mp (h2.mem_iff.mp hb)
    have hkey : pathKey a.1 = pathKey b.1 :=
      String.ext (lexLe_antisymm _ _ hab hba)
    exact hinj a ha2 b hb2 hkey
  rw [renderAll, renderAll, heq]

/-- Witness for C9 (amended): the same two resources under a common parent
with the two child-insertion orders render identically. -/
theorem renderAll_insertion_order_independent_witness :
    renderAll [CTree.node "P" none
        [.node "Q" (some ⟨"TQ", []⟩) [], .node "R" (some ⟨"TR", []⟩) []]]
      = renderAll [CTree.node "P" none
        [.node "R" (some ⟨"TR", []⟩) [], .node "Q" (some ⟨"TQ", []⟩) []]] := by
  have hf1 : findAll [CTree.node "P" none
      [.node "Q" (some ⟨"TQ", []⟩) [], .node "R" (some ⟨"TR", []⟩) []]]
      = [(["P", "Q"], ⟨"TQ", []⟩), (["P", "R"], ⟨"TR", []⟩)] := by
    simp [findAll, findAllFrom]
  have hf2 : findAll [CTree.node "P" none
      [.node "R" (some ⟨"TR", []⟩) [], .node "Q" (some ⟨"TQ", []⟩) []]]
      = [(["P", "R"], ⟨"TR", []⟩), (["P", "Q"], ⟨"TQ", []⟩)] := by
    simp [findAll, findAllFrom]
  exact renderAll_insertion_order_independent _ _
    (by rw [hf1, hf2]; exact List.Perm.swap _ _ _)
    (by rw [hf1]; decide)

/-- First tree of the C9 counterexample: ids containing a slash make the
two distinct paths ["A/", "B"] and ["A", "/B"] share both the sort key
"A//B" and the logical id "A/B". -/
def slashTreesA : List CTree :=
  [.node "A/" none [.node "B" (some ⟨"T1", []⟩) []],
   .node "A" none [.node "/B" (some ⟨"T2", []⟩) []]]

/-- Second tree of the C9 counterexample: same resources, same paths, same
property contents — only the insertion order of the root's children
differs. -/
def slashTreesB : List CTree :=
  [.node "A" none [.node "/B" (some ⟨"T2", []⟩) []],
   .node "A/" none [.node "B" (some ⟨"T1", []⟩) []]]

/-- C9 counterexample: the two trees contain the same resources with the
same paths and contents, yet `renderAll` returns different documents,
because the colliding sort keys leave the merge order at the mercy of the
traversal order and the later entry overwrites the earlier one under their
shared logical id. -/
theorem renderAll_insertion_order_matters :
    (findAll slashTreesA).Perm (findAll slashTreesB) ∧
    renderAll slashTreesA ≠ renderAll slashTreesB := by
  have hfa : findAll slashTreesA
      = [(["A/", "B"], ⟨"T1", []⟩), (["A", "/B"], ⟨"T2", []⟩)] := by
    simp [findAll, findAllFrom, slashTreesA]
  have hfb : findAll slashTreesB
      = [(["A", "/B"], ⟨"T2", []⟩), (["A/", "B"], ⟨"T1", []⟩)] := by
    simp [findAll, findAllFrom, slashTreesB]
  constructor
  · rw [hfa, hfb]
    exact List.Perm.swap _ _ _
  · rw [renderAll, renderAll, hfa, hfb]
    decide
